import Mathlib

/-!
Verification development for the gamm repository (a per-repository git
identity manager). The Rust source under src/gamm is shallowly embedded:
the two JSON-backed stores become association lists (modelling the Rust
HashMap at the map abstraction, where iteration order is irrelevant),
external git invocations become explicit command traces, interactive
prompts become scripted input records, and process exit becomes an
explicit exit code in the run result.
-/

namespace Gamm

/-! Association-list model of the Rust HashMap used by both stores.
Insertion replaces any existing binding for the key, as HashMap insert
does; erase removes every binding for the key. -/

def mapLookup {α : Type} (m : List (String × α)) (k : String) : Option α :=
  match m with
  | [] => none
  | p :: rest => if p.1 = k then some p.2 else mapLookup rest k

def mapInsert {α : Type} (m : List (String × α)) (k : String) (v : α) :
    List (String × α) :=
  (k, v) :: m.filter (fun p => p.1 != k)

def mapErase {α : Type} (m : List (String × α)) (k : String) :
    List (String × α) :=
  m.filter (fun p => p.1 != k)

/-! Data model from src/gamm/store.rs. -/

/-- User configuration section (store.rs, UserConfig). -/
structure UserConfig where
  email : String
  name : String
  signoff : Option String
deriving DecidableEq, Repr

/-- URL rewrite rule (store.rs, UrlConfig). -/
structure UrlConfig where
  pattern : String
  instead_of : String
deriving DecidableEq, Repr

/-- Commit configuration section (store.rs, CommitConfig). -/
structure CommitConfig where
  gpgsign : Bool
deriving DecidableEq, Repr

/-- A complete git configuration profile (store.rs, GitConfig). -/
structure GitConfig where
  user : UserConfig
  urls : List UrlConfig
  commit : CommitConfig
deriving DecidableEq, Repr

/-- Store for managing multiple git config profiles (store.rs, ConfigStore).
The Rust field is a HashMap with serde flatten; modelled as an
association list from profile name to config. -/
structure ConfigStore where
  configs : List (String × GitConfig)
deriving DecidableEq, Repr

def ConfigStore.new : ConfigStore := ⟨[]⟩

def ConfigStore.add (s : ConfigStore) (name : String) (config : GitConfig) :
    ConfigStore :=
  ⟨mapInsert s.configs name config⟩

def ConfigStore.get (s : ConfigStore) (name : String) : Option GitConfig :=
  mapLookup s.configs name

/-- ConfigStore.remove returns the removed value, if any, together with the
store after removal. -/
def ConfigStore.remove (s : ConfigStore) (name : String) :
    Option GitConfig × ConfigStore :=
  (mapLookup s.configs name, ⟨mapErase s.configs name⟩)

def ConfigStore.list (s : ConfigStore) : List String :=
  s.configs.map Prod.fst

/-! Data model from src/gamm/repo.rs. -/

/-- A repository entry linking a remote URL to a config profile
(repo.rs, Repo). -/
structure Repo where
  repo_name : String
  url : String
  commit_by : String
deriving DecidableEq, Repr

/-- Store for managing repository ownership mappings (repo.rs, RepoStore).
The Rust field repos is a HashMap from remote URL to Repo and is NOT
marked with serde flatten. -/
structure RepoStore where
  repos : List (String × Repo)
deriving DecidableEq, Repr

def RepoStore.new : RepoStore := ⟨[]⟩

/-- Add a new repo to the store; the URL is used as the key (repo.rs, add). -/
def RepoStore.add (s : RepoStore) (repo : Repo) : RepoStore :=
  ⟨mapInsert s.repos repo.url repo⟩

/-- Add a new repo by individual fields (repo.rs, add_repo). -/
def RepoStore.add_repo (s : RepoStore)
    (repo_name url commit_by : String) : RepoStore :=
  ⟨mapInsert s.repos url
    { repo_name := repo_name, url := url, commit_by := commit_by }⟩

/-- Look up who owns the repo by remote URL (repo.rs, lookup_owner_by_url). -/
def RepoStore.lookup_owner_by_url (s : RepoStore) (url : String) :
    Option String :=
  (mapLookup s.repos url).map Repo.commit_by

/-- Get a repo by its remote URL (repo.rs, get_by_url). -/
def RepoStore.get_by_url (s : RepoStore) (url : String) : Option Repo :=
  mapLookup s.repos url

/-- Remove a repo by its URL, returning the removed value and the
remaining store (repo.rs, remove_by_url). -/
def RepoStore.remove_by_url (s : RepoStore) (url : String) :
    Option Repo × RepoStore :=
  (mapLookup s.repos url, ⟨mapErase s.repos url⟩)

/-- Find all repos owned by a specific config profile
(repo.rs, find_by_owner). -/
def RepoStore.find_by_owner (s : RepoStore) (commit_by : String) :
    List Repo :=
  (s.repos.map Prod.snd).filter (fun r => r.commit_by == commit_by)

/-! Basic map lemmas shared by the claim proofs. -/

@[simp] theorem mapLookup_nil {α : Type} (k : String) :
    mapLookup ([] : List (String × α)) k = none := rfl

@[simp] theorem mapLookup_cons {α : Type} (p : String × α)
    (m : List (String × α)) (k : String) :
    mapLookup (p :: m) k = if p.1 = k then some p.2 else mapLookup m k := rfl

theorem mapLookup_insert_self {α : Type} (m : List (String × α))
    (k : String) (v : α) : mapLookup (mapInsert m k v) k = some v := by
  simp [mapInsert]

theorem mapLookup_filter_ne {α : Type} (m : List (String × α))
    (k k₂ : String) (h : k₂ ≠ k) :
    mapLookup (m.filter (fun p => p.1 != k)) k₂ = mapLookup m k₂ := by
  induction m with
  | nil => rfl
  | cons hd tl ih =>
    rw [List.filter_cons]
    by_cases hk : hd.1 = k
    · simp [hk, Ne.symm h, ih]
    · simp [hk, ih]

theorem mapLookup_insert_ne {α : Type} (m : List (String × α))
    (k k₂ : String) (v : α) (h : k₂ ≠ k) :
    mapLookup (mapInsert m k v) k₂ = mapLookup m k₂ := by
  simp only [mapInsert, mapLookup_cons, Ne.symm h, if_false]
  exact mapLookup_filter_ne m k k₂ h

theorem mapLookup_erase {α : Type} (m : List (String × α))
    (k k₂ : String) :
    mapLookup (mapErase m k₂) k = if k = k₂ then none else mapLookup m k := by
  by_cases h : k = k₂
  · subst h
    simp only [if_pos rfl]
    induction m with
    | nil => rfl
    | cons hd tl ih =>
      rw [mapErase, List.filter_cons]
      simp only [mapErase] at ih
      by_cases hk : hd.1 = k
      · simpa [hk] using ih
      · simpa [hk] using ih
  · rw [if_neg h]
    exact mapLookup_filter_ne m k₂ k h

theorem mapLookup_mem {α : Type} (m : List (String × α)) (k : String)
    (v : α) (h : mapLookup m k = some v) : (k, v) ∈ m := by
  induction m with
  | nil => simp at h
  | cons hd tl ih =>
    by_cases hk : hd.1 = k
    · rw [mapLookup_cons, if_pos hk] at h
      injection h with h
      have heq : hd = (k, v) := by
        cases hd
        simp_all
      rw [← heq]
      exact List.mem_cons_self _ _
    · rw [mapLookup_cons, if_neg hk] at h
      exact List.mem_cons_of_mem hd (ih h)

/-! Embedding of src/gamm/command.rs. External git invocations are
recorded as argument lists; reads of the current global identity are
modelled by the raw outcome of the read command; interactive prompts
are scripted inputs; std process exit becomes an exit code field. -/

/-- Raw outcome of invoking the external git tool to read a value:
none models a spawn failure, otherwise the exit status flag and the
captured standard output. -/
structure CmdOutput where
  success : Bool
  stdout : String
deriving DecidableEq, Repr

/-- Whitespace trim on both ends of the captured output, mirroring the
Rust str trim applied to it. -/
def trimString (s : String) : String :=
  ⟨((s.data.dropWhile Char.isWhitespace).reverse.dropWhile
      Char.isWhitespace).reverse⟩

/-- Get the current git user.email from global config
(command.rs, get_current_git_email): on success, the trimmed output if
non-empty, otherwise none. -/
def get_current_git_email (raw : Option CmdOutput) : Option String :=
  match raw with
  | none => none
  | some o =>
    if o.success then
      let email := trimString o.stdout
      if email ≠ "" then some email else none
    else none

/-- Get the current git user.name from global config
(command.rs, get_current_git_name). -/
def get_current_git_name (raw : Option CmdOutput) : Option String :=
  match raw with
  | none => none
  | some o =>
    if o.success then
      let name := trimString o.stdout
      if name ≠ "" then some name else none
    else none

/-- Apply git config for the given owner (command.rs, apply_git_config):
the sequence of git write invocations issued, in order. The owner and
repo_url parameters of the Rust function are print-only and omitted.
Empty user.name and user.email are skipped by the source. -/
def apply_git_config (config : GitConfig) : List (List String) :=
  (if config.user.name ≠ ""
    then [["config", "--global", "user.name", config.user.name]] else []) ++
  (if config.user.email ≠ ""
    then [["config", "--global", "user.email", config.user.email]] else []) ++
  [["config", "--global", "commit.gpgsign",
    if config.commit.gpgsign then "true" else "false"]] ++
  config.urls.map (fun u =>
    ["config", "--global", "url." ++ u.pattern ++ ".insteadOf", u.instead_of])

/-- Scripted answers for the prompts of add_config_interactive: the
final values the user ends up submitting. -/
structure NewProfileInputs where
  profile_name : String
  user_name : String
  user_email : String
  gpgsign : Bool
deriving DecidableEq, Repr

/-- Scripted answers for the prompts of add_repo_interactive. The
first_profile answers are consumed only when the profile store is
empty; new_profile only when the user picks the create-new entry. -/
structure ProvisionInputs where
  first_profile : NewProfileInputs
  confirm_add : Bool
  repo_name : String
  selection : Nat
  new_profile : NewProfileInputs
deriving DecidableEq, Repr

/-- Show interactive UI to add a new config profile
(command.rs, add_config_interactive). Returns the store after the add
(which the source immediately saves), the git writes issued by the
immediate application (user.name, user.email, commit.gpgsign, with no
emptiness guard and no URL rewrites), and the new profile name. -/
def add_config_interactive (cs : ConfigStore) (inp : NewProfileInputs) :
    ConfigStore × List (List String) × String :=
  let git_config : GitConfig :=
    { user := { name := inp.user_name, email := inp.user_email, signoff := none },
      urls := [],
      commit := { gpgsign := inp.gpgsign } }
  let cs₂ := cs.add inp.profile_name git_config
  (cs₂,
   [["config", "--global", "user.name", git_config.user.name],
    ["config", "--global", "user.email", git_config.user.email],
    ["config", "--global", "commit.gpgsign",
      if git_config.commit.gpgsign then "true" else "false"]],
   inp.profile_name)

/-- Result of the provisioning interaction: final stores, git writes
issued, whether each store file was saved, and the chosen owner (none
when the user declined to register the repository). -/
structure ProvisionResult where
  cs : ConfigStore
  rs : RepoStore
  writes : List (List String)
  saved_config : Bool
  saved_repos : Bool
  owner : Option String
deriving DecidableEq, Repr

/-- Show interactive UI to add a new repo (command.rs,
add_repo_interactive). When the profile store is empty a first profile
is created, saved and applied before the user is asked whether to
register the repository at all. -/
def add_repo_interactive (repo_url : String) (cs : ConfigStore)
    (rs : RepoStore) (inp : ProvisionInputs) : ProvisionResult :=
  let profiles := cs.list
  let (cs₁, writes₁, saved₁, profiles₁) :=
    if profiles.isEmpty then
      let r := add_config_interactive cs inp.first_profile
      (r.1, r.2.1, true, profiles ++ [r.2.2])
    else (cs, [], false, profiles)
  if ¬ inp.confirm_add then
    { cs := cs₁, rs := rs, writes := writes₁, saved_config := saved₁,
      saved_repos := false, owner := none }
  else
    let (cs₂, writes₂, saved₂, owner) :=
      if inp.selection = profiles₁.length then
        let r := add_config_interactive cs₁ inp.new_profile
        (r.1, writes₁ ++ r.2.1, true, r.2.2)
      else (cs₁, writes₁, saved₁, profiles₁.getD inp.selection "")
    let rs₂ := rs.add
      { repo_name := inp.repo_name, url := repo_url, commit_by := owner }
    { cs := cs₂, rs := rs₂, writes := writes₂, saved_config := saved₂,
      saved_repos := true, owner := some owner }

/-- Observable outcome of one run of the pre-commit reconciliation flow:
process exit code, git write invocations in order, resulting persisted
stores, whether the dangling-reference warning fired, and whether each
store file was saved. -/
structure RunResult where
  exitCode : Nat
  writes : List (List String)
  rs : RepoStore
  cs : ConfigStore
  warned : Bool
  saved_config : Bool
  saved_repos : Bool
deriving DecidableEq, Repr

/-- The pre-commit reconciliation flow (command.rs, pre_commit).
rawName and rawEmail are the raw outcomes of the two global git config
read commands. -/
def pre_commit (rs : RepoStore) (cs : ConfigStore)
    (rawName rawEmail : Option CmdOutput) (inp : ProvisionInputs)
    (repo_url : String) : RunResult :=
  match rs.lookup_owner_by_url repo_url with
  | some owner =>
    match cs.get owner with
    | none =>
      { exitCode := 0, writes := [], rs := rs, cs := cs, warned := true,
        saved_config := false, saved_repos := false }
    | some config =>
      let current_email := get_current_git_email rawEmail
      let current_name := get_current_git_name rawName
      let email_matches : Bool :=
        match current_email with
        | some e => e == config.user.email
        | none => false
      let name_matches : Bool :=
        match current_name with
        | some n => n == config.user.name
        | none => false
      if email_matches && name_matches then
        { exitCode := 0, writes := [], rs := rs, cs := cs, warned := false,
          saved_config := false, saved_repos := false }
      else
        { exitCode := 1, writes := apply_git_config config, rs := rs,
          cs := cs, warned := false, saved_config := false,
          saved_repos := false }
  | none =>
    let p := add_repo_interactive repo_url cs rs inp
    match p.owner with
    | some owner =>
      let applyWrites :=
        match p.cs.get owner with
        | some config => apply_git_config config
        | none => []
      { exitCode := 1, writes := p.writes ++ applyWrites, rs := p.rs,
        cs := p.cs, warned := false, saved_config := p.saved_config,
        saved_repos := p.saved_repos }
    | none =>
      { exitCode := 0, writes := p.writes, rs := p.rs, cs := p.cs,
        warned := false, saved_config := p.saved_config,
        saved_repos := false }

/-- Result of profile deletion: persisted stores after the run and
whether each store file was saved. -/
structure DeleteResult where
  cs : ConfigStore
  rs : RepoStore
  saved_config : Bool
  saved_repos : Bool
deriving DecidableEq, Repr

/-- Delete a profile configuration by explicit name, cascading to the
repo store (command.rs, profile_delete with a provided name). The
stores returned are the persisted ones: when nothing is saved the files
keep their prior contents. -/
def profile_delete (cs : ConfigStore) (rs : RepoStore) (name : String) :
    DeleteResult :=
  let profiles := cs.list
  if profiles.isEmpty then
    { cs := cs, rs := rs, saved_config := false, saved_repos := false }
  else
    match (if profiles.contains name then some name else none) with
    | some profile_name =>
      let related_repos := (rs.find_by_owner profile_name).map Repo.url
      let rs₂ := related_repos.foldl
        (fun s u => (RepoStore.remove_by_url s u).2) rs
      let removed := (cs.remove profile_name).1
      let cs₂ := (cs.remove profile_name).2
      if removed.isSome then
        { cs := cs₂, rs := rs₂, saved_config := true, saved_repos := true }
      else
        { cs := cs, rs := rs, saved_config := false, saved_repos := false }
    | none =>
      { cs := cs, rs := rs, saved_config := false, saved_repos := false }

/-! JSON model of the persisted form. The serializers mirror the serde
derives on the Rust structs, field for field in declaration order; the
deserializers mirror the derived Deserialize impls at the tree level
(fields found by name, Option fields tolerating absence or null,
unknown fields ignored). ConfigStore carries serde flatten, so profile
names appear at the top level; RepoStore does not, so its map sits
under a repos field. -/

/-- Option-valued traversal of a list, failing on the first failure;
the monadic collection step used by the derived deserializers. -/
def optTraverse {α β : Type} (f : α → Option β) : List α → Option (List β)
  | [] => some []
  | x :: xs => do
    let y ← f x
    let ys ← optTraverse f xs
    pure (y :: ys)

inductive Json where
  | null : Json
  | bool (b : Bool) : Json
  | str (s : String) : Json
  | arr (xs : List Json) : Json
  | obj (fields : List (String × Json)) : Json

def Json.getField (j : Json) (k : String) : Option Json :=
  match j with
  | .obj fs => mapLookup fs k
  | _ => none

def Json.asStr (j : Json) : Option String :=
  match j with
  | .str s => some s
  | _ => none

def Json.asBool (j : Json) : Option Bool :=
  match j with
  | .bool b => some b
  | _ => none

/-- Top-level field names of a JSON object value. -/
def Json.topKeys (j : Json) : Option (List String) :=
  match j with
  | .obj fs => some (fs.map Prod.fst)
  | _ => none

def UserConfig.toJson (u : UserConfig) : Json :=
  .obj [("email", .str u.email), ("name", .str u.name),
        ("signoff", match u.signoff with
                    | some s => .str s
                    | none => .null)]

def UserConfig.fromJson (j : Json) : Option UserConfig := do
  let e ← (← j.getField "email").asStr
  let n ← (← j.getField "name").asStr
  let s ← match j.getField "signoff" with
    | none => some none
    | some .null => some none
    | some (.str s) => some (some s)
    | some _ => none
  pure { email := e, name := n, signoff := s }

def UrlConfig.toJson (u : UrlConfig) : Json :=
  .obj [("pattern", .str u.pattern), ("instead_of", .str u.instead_of)]

def UrlConfig.fromJson (j : Json) : Option UrlConfig := do
  let p ← (← j.getField "pattern").asStr
  let i ← (← j.getField "instead_of").asStr
  pure { pattern := p, instead_of := i }

def CommitConfig.toJson (c : CommitConfig) : Json :=
  .obj [("gpgsign", .bool c.gpgsign)]

def CommitConfig.fromJson (j : Json) : Option CommitConfig := do
  let g ← (← j.getField "gpgsign").asBool
  pure { gpgsign := g }

def GitConfig.toJson (c : GitConfig) : Json :=
  .obj [("user", c.user.toJson),
        ("urls", .arr (c.urls.map UrlConfig.toJson)),
        ("commit", c.commit.toJson)]

def GitConfig.fromJson (j : Json) : Option GitConfig := do
  let u ← UserConfig.fromJson (← j.getField "user")
  let urls ← match j.getField "urls" with
    | some (.arr xs) => optTraverse UrlConfig.fromJson xs
    | _ => none
  let c ← CommitConfig.fromJson (← j.getField "commit")
  pure { user := u, urls := urls, commit := c }

/-- Persisted form of the profile store: serde flatten puts each
profile name at the top level of the object. -/
def ConfigStore.toJson (s : ConfigStore) : Json :=
  .obj (s.configs.map fun p => (p.1, p.2.toJson))

def ConfigStore.fromJson (j : Json) : Option ConfigStore :=
  match j with
  | .obj fs =>
    (optTraverse (fun p => (GitConfig.fromJson p.2).map fun c => (p.1, c)) fs).map
      ConfigStore.mk
  | _ => none

def Repo.toJson (r : Repo) : Json :=
  .obj [("repo_name", .str r.repo_name), ("url", .str r.url),
        ("commit_by", .str r.commit_by)]

def Repo.fromJson (j : Json) : Option Repo := do
  let n ← (← j.getField "repo_name").asStr
  let u ← (← j.getField "url").asStr
  let c ← (← j.getField "commit_by").asStr
  pure { repo_name := n, url := u, commit_by := c }

/-- Persisted form of the repo store: the repos field is not flattened,
so the URL-keyed map is nested under a single repos key. -/
def RepoStore.toJson (s : RepoStore) : Json :=
  .obj [("repos", .obj (s.repos.map fun p => (p.1, p.2.toJson)))]

def RepoStore.fromJson (j : Json) : Option RepoStore :=
  match j.getField "repos" with
  | some (.obj fs) =>
    (optTraverse (fun p => (Repo.fromJson p.2).map fun r => (p.1, r)) fs).map
      RepoStore.mk
  | _ => none

/-- The persisted form the specification describes for the Repository
Store, with the URL keys directly at the top level of the file, the way
the Profile Store persists profile names. Refinement target only; the
serializer embedded from the source is RepoStore.toJson. -/
def repoStoreToJsonSpecTopLevel (s : RepoStore) : Json :=
  .obj (s.repos.map fun p => (p.1, p.2.toJson))

/-! Round-trip lemmas for the persisted forms. -/

theorem userConfig_round_trip (u : UserConfig) :
    UserConfig.fromJson u.toJson = some u := by
  cases u with
  | mk e n s => cases s <;> rfl

theorem urlConfig_round_trip (u : UrlConfig) :
    UrlConfig.fromJson u.toJson = some u := by
  cases u
  rfl

theorem commitConfig_round_trip (c : CommitConfig) :
    CommitConfig.fromJson c.toJson = some c := by
  cases c
  rfl

theorem urlList_round_trip (xs : List UrlConfig) :
    optTraverse UrlConfig.fromJson (xs.map UrlConfig.toJson) = some xs := by
  induction xs with
  | nil => rfl
  | cons hd tl ih =>
    simp [optTraverse, urlConfig_round_trip hd, ih]

theorem gitConfig_round_trip (c : GitConfig) :
    GitConfig.fromJson c.toJson = some c := by
  cases c with
  | mk u urls cm =>
    simp only [GitConfig.toJson, GitConfig.fromJson, Json.getField,
      mapLookup_cons, mapLookup_nil]
    norm_num
    simp [userConfig_round_trip, urlList_round_trip, commitConfig_round_trip]

theorem configStore_round_trip (cs : ConfigStore) :
    ConfigStore.fromJson cs.toJson = some cs := by
  cases cs with
  | mk l =>
    simp only [ConfigStore.toJson, ConfigStore.fromJson]
    induction l with
    | nil => rfl
    | cons hd tl ih =>
      simp_all [optTraverse, gitConfig_round_trip]

theorem repo_round_trip (r : Repo) : Repo.fromJson r.toJson = some r := by
  cases r
  rfl

theorem repoStore_round_trip (rs : RepoStore) :
    RepoStore.fromJson rs.toJson = some rs := by
  cases rs with
  | mk l =>
    simp only [RepoStore.toJson, RepoStore.fromJson, Json.getField,
      mapLookup_cons, mapLookup_nil]
    norm_num
    induction l with
    | nil => rfl
    | cons hd tl ih =>
      simp_all [optTraverse, repo_round_trip]

/-! Branch lemmas for the reconciliation flow. -/

theorem optionMatchesEq (o : Option String) (x : String) :
    ((match o with
      | some e => e == x
      | none => false) = true) ↔ o = some x := by
  cases o <;> simp

/-- The known-URL, known-owner branch of pre_commit reduces to a
two-way case on exact equality of the read identity with the profile. -/
theorem pre_commit_known (rs : RepoStore) (cs : ConfigStore)
    (rawName rawEmail : Option CmdOutput) (inp : ProvisionInputs)
    (repo_url owner : String) (config : GitConfig)
    (h₁ : rs.lookup_owner_by_url repo_url = some owner)
    (h₂ : cs.get owner = some config) :
    pre_commit rs cs rawName rawEmail inp repo_url =
      if get_current_git_email rawEmail = some config.user.email ∧
         get_current_git_name rawName = some config.user.name then
        { exitCode := 0, writes := [], rs := rs, cs := cs, warned := false,
          saved_config := false, saved_repos := false }
      else
        { exitCode := 1, writes := apply_git_config config, rs := rs,
          cs := cs, warned := false, saved_config := false,
          saved_repos := false } := by
  unfold pre_commit
  rw [h₁]
  simp only []
  rw [h₂]
  simp only []
  have hb : ((match get_current_git_email rawEmail with
              | some e => e == config.user.email
              | none => false) &&
             (match get_current_git_name rawName with
              | some n => n == config.user.name
              | none => false)) = true ↔
            (get_current_git_email rawEmail = some config.user.email ∧
             get_current_git_name rawName = some config.user.name) := by
    rw [Bool.and_eq_true, optionMatchesEq, optionMatchesEq]
  exact if_congr hb rfl rfl

/-- The known-URL, missing-owner branch of pre_commit. -/
theorem pre_commit_dangling (rs : RepoStore) (cs : ConfigStore)
    (rawName rawEmail : Option CmdOutput) (inp : ProvisionInputs)
    (repo_url owner : String)
    (h₁ : rs.lookup_owner_by_url repo_url = some owner)
    (h₂ : cs.get owner = none) :
    pre_commit rs cs rawName rawEmail inp repo_url =
      { exitCode := 0, writes := [], rs := rs, cs := cs, warned := true,
        saved_config := false, saved_repos := false } := by
  unfold pre_commit
  rw [h₁]
  simp only []
  rw [h₂]

/-- Claim C1: for a URL recorded in the repo store whose owning profile
exists, if the current global user.name or user.email read from git
differs from the profile value under exact string equality, or is
unset or empty (which makes the read return none), the flow applies the
resolved profile configuration and exits with a non-zero status; and
when name and email both match exactly, the apply path is not taken at
all, so gpgsign and URL rewrites never trigger it on their own. -/
theorem c1_mismatch_applies_and_aborts (rs : RepoStore) (cs : ConfigStore)
    (rawName rawEmail : Option CmdOutput) (inp : ProvisionInputs)
    (repo_url owner : String) (config : GitConfig) (r : RunResult)
    (h₁ : rs.lookup_owner_by_url repo_url = some owner)
    (h₂ : cs.get owner = some config)
    (hr : r = pre_commit rs cs rawName rawEmail inp repo_url) :
    ((get_current_git_name rawName ≠ some config.user.name ∨
      get_current_git_email rawEmail ≠ some config.user.email) →
      r.exitCode ≠ 0 ∧ r.writes = apply_git_config config) ∧
    ((get_current_git_name rawName = some config.user.name ∧
      get_current_git_email rawEmail = some config.user.email) →
      r.exitCode = 0 ∧ r.writes = []) := by
  rw [pre_commit_known rs cs rawName rawEmail inp repo_url owner config h₁ h₂]
    at hr
  constructor
  · intro hmis
    have hcond : ¬(get_current_git_email rawEmail = some config.user.email ∧
        get_current_git_name rawName = some config.user.name) := by
      rcases hmis with hn | he
      · exact fun hc => hn hc.2
      · exact fun hc => he hc.1
    rw [if_neg hcond] at hr
    subst hr
    exact ⟨Nat.one_ne_zero, rfl⟩
  · intro hmatch
    rw [if_pos ⟨hmatch.2, hmatch.1⟩] at hr
    subst hr
    exact ⟨rfl, rfl⟩

theorem c1_mismatch_applies_and_aborts_witness :
    (pre_commit ⟨[("git@h:a/b.git", ⟨"b", "git@h:a/b.git", "work"⟩)]⟩
        ⟨[("work", ⟨⟨"a@x.com", "A", none⟩, [], ⟨false⟩⟩)]⟩
        (some ⟨true, "B"⟩) (some ⟨true, "a@x.com"⟩)
        ⟨⟨"", "", "", false⟩, false, "", 0, ⟨"", "", "", false⟩⟩
        "git@h:a/b.git").exitCode ≠ 0 ∧
    (pre_commit ⟨[("git@h:a/b.git", ⟨"b", "git@h:a/b.git", "work"⟩)]⟩
        ⟨[("work", ⟨⟨"a@x.com", "A", none⟩, [], ⟨false⟩⟩)]⟩
        (some ⟨true, "B"⟩) (some ⟨true, "a@x.com"⟩)
        ⟨⟨"", "", "", false⟩, false, "", 0, ⟨"", "", "", false⟩⟩
        "git@h:a/b.git").writes =
      apply_git_config ⟨⟨"a@x.com", "A", none⟩, [], ⟨false⟩⟩ :=
  (c1_mismatch_applies_and_aborts _ _ _ _ _ _ _ _ _
    (by rfl) (by rfl) rfl).1 (Or.inl (by decide))

/-- Claim C2: when the stored URL resolves to an existing profile and
the current global user.name and user.email both exactly equal its
values, the flow exits zero, issues no git writes, leaves both stores
untouched and unsaved, and a second run in the resulting state is the
same non-aborting no-op. -/
theorem c2_match_is_idempotent_noop (rs : RepoStore) (cs : ConfigStore)
    (rawName rawEmail : Option CmdOutput) (inp : ProvisionInputs)
    (repo_url owner : String) (config : GitConfig) (r : RunResult)
    (h₁ : rs.lookup_owner_by_url repo_url = some owner)
    (h₂ : cs.get owner = some config)
    (hname : get_current_git_name rawName = some config.user.name)
    (hemail : get_current_git_email rawEmail = some config.user.email)
    (hr : r = pre_commit rs cs rawName rawEmail inp repo_url) :
    r.exitCode = 0 ∧ r.writes = [] ∧ r.rs = rs ∧ r.cs = cs ∧
    r.saved_config = false ∧ r.saved_repos = false ∧
    pre_commit r.rs r.cs rawName rawEmail inp repo_url = r := by
  rw [pre_commit_known rs cs rawName rawEmail inp repo_url owner config h₁ h₂,
    if_pos ⟨hemail, hname⟩] at hr
  subst hr
  refine ⟨rfl, rfl, rfl, rfl, rfl, rfl, ?_⟩
  rw [pre_commit_known _ _ rawName rawEmail inp repo_url owner config h₁ h₂,
    if_pos ⟨hemail, hname⟩]

theorem c2_match_is_idempotent_noop_witness :
    (pre_commit ⟨[("git@h:a/b.git", ⟨"b", "git@h:a/b.git", "work"⟩)]⟩
        ⟨[("work", ⟨⟨"a@x.com", "A", none⟩, [], ⟨false⟩⟩)]⟩
        (some ⟨true, "A"⟩) (some ⟨true, "a@x.com"⟩)
        ⟨⟨"", "", "", false⟩, false, "", 0, ⟨"", "", "", false⟩⟩
        "git@h:a/b.git").exitCode = 0 ∧
    (pre_commit ⟨[("git@h:a/b.git", ⟨"b", "git@h:a/b.git", "work"⟩)]⟩
        ⟨[("work", ⟨⟨"a@x.com", "A", none⟩, [], ⟨false⟩⟩)]⟩
        (some ⟨true, "A"⟩) (some ⟨true, "a@x.com"⟩)
        ⟨⟨"", "", "", false⟩, false, "", 0, ⟨"", "", "", false⟩⟩
        "git@h:a/b.git").writes = [] :=
  have h := c2_match_is_idempotent_noop _ _ _ _ _ _ _ _ _
    (by rfl) (by rfl) (by decide) (by decide) rfl
  ⟨h.1, h.2.1⟩

/-- Claim C7: when the stored URL resolves to an owner profile that is
absent from the profile store, the flow warns and terminates
successfully as a no-op: exit zero, no git writes, no store mutation
and no store save. -/
theorem c7_dangling_reference_warns_noop (rs : RepoStore)
    (cs : ConfigStore) (rawName rawEmail : Option CmdOutput)
    (inp : ProvisionInputs) (repo_url owner : String) (r : RunResult)
    (h₁ : rs.lookup_owner_by_url repo_url = some owner)
    (h₂ : cs.get owner = none)
    (hr : r = pre_commit rs cs rawName rawEmail inp repo_url) :
    r.warned = true ∧ r.exitCode = 0 ∧ r.writes = [] ∧ r.rs = rs ∧
    r.cs = cs ∧ r.saved_config = false ∧ r.saved_repos = false := by
  rw [pre_commit_dangling rs cs rawName rawEmail inp repo_url owner h₁ h₂]
    at hr
  subst hr
  exact ⟨rfl, rfl, rfl, rfl, rfl, rfl, rfl⟩

theorem c7_dangling_reference_warns_noop_witness :
    (pre_commit ⟨[("git@h:a/b.git", ⟨"b", "git@h:a/b.git", "ghost"⟩)]⟩
        ⟨[]⟩ none none
        ⟨⟨"", "", "", false⟩, false, "", 0, ⟨"", "", "", false⟩⟩
        "git@h:a/b.git").warned = true ∧
    (pre_commit ⟨[("git@h:a/b.git", ⟨"b", "git@h:a/b.git", "ghost"⟩)]⟩
        ⟨[]⟩ none none
        ⟨⟨"", "", "", false⟩, false, "", 0, ⟨"", "", "", false⟩⟩
        "git@h:a/b.git").exitCode = 0 :=
  have h := c7_dangling_reference_warns_noop _ _ _ _ _ _ _ _
    (by rfl) (by rfl) rfl
  ⟨h.1, h.2.1⟩

/-- Claim C8: in every profile store state, add(P, cfg) followed by
get(P) returns cfg; add is an upsert keyed by the profile name, so a
prior value under P is replaced and the last write wins. -/
theorem c8_add_then_get_upsert (cs : ConfigStore) (P : String)
    (cfg : GitConfig) :
    (cs.add P cfg).get P = some cfg ∧
    ∀ prior : GitConfig, ((cs.add P prior).add P cfg).get P = some cfg :=
  ⟨mapLookup_insert_self cs.configs P cfg,
   fun prior =>
     mapLookup_insert_self (mapInsert cs.configs P prior) P cfg⟩

/-- Claim C9: serializing either store to its persisted JSON form and
deserializing the result yields the original store, for every
combination of field values including an absent optional signoff. -/
theorem c9_store_round_trip (cs : ConfigStore) (rs : RepoStore) :
    ConfigStore.fromJson cs.toJson = some cs ∧
    RepoStore.fromJson rs.toJson = some rs :=
  ⟨configStore_round_trip cs, repoStore_round_trip rs⟩

/-! Operation sequences over the repo store, for the implicit key
invariant of claim C10. -/

inductive RepoOp where
  | add (repo : Repo)
  | add_repo (repo_name url commit_by : String)
  | remove_by_url (url : String)

def applyRepoOp (s : RepoStore) : RepoOp → RepoStore
  | .add r => s.add r
  | .add_repo n u c => s.add_repo n u c
  | .remove_by_url u => (s.remove_by_url u).2

def applyRepoOps (ops : List RepoOp) (s : RepoStore) : RepoStore :=
  ops.foldl applyRepoOp s

/-- Every entry of the repo store is keyed by the url field of its
value. -/
def RepoStore.keyIsUrl (s : RepoStore) : Prop :=
  ∀ p ∈ s.repos, p.1 = p.2.url

theorem keyIsUrl_insert (m : List (String × Repo)) (r : Repo)
    (h : ∀ p ∈ m, p.1 = p.2.url) :
    ∀ p ∈ mapInsert m r.url r, p.1 = p.2.url := by
  intro p hp
  rw [mapInsert, List.mem_cons] at hp
  rcases hp with hp | hp
  · rw [hp]
  · exact h p (List.mem_of_mem_filter hp)

theorem keyIsUrl_applyRepoOp (s : RepoStore) (op : RepoOp)
    (h : s.keyIsUrl) : (applyRepoOp s op).keyIsUrl := by
  cases op with
  | add r => exact keyIsUrl_insert s.repos r h
  | add_repo n u c =>
    exact keyIsUrl_insert s.repos { repo_name := n, url := u, commit_by := c } h
  | remove_by_url u =>
    intro p hp
    exact h p (List.mem_of_mem_filter hp)

theorem keyIsUrl_applyRepoOps (ops : List RepoOp) (s : RepoStore)
    (h : s.keyIsUrl) : (applyRepoOps ops s).keyIsUrl := by
  induction ops generalizing s with
  | nil => exact h
  | cons op ops ih => exact ih _ (keyIsUrl_applyRepoOp s op h)

/-- Claim C10: after any sequence of add, add_repo and remove_by_url
operations starting from the empty repo store, every stored entry is
keyed by its own url field; consequently get_by_url u only returns
entries whose url field is exactly u, and lookup_owner_by_url u returns
the commit_by of that same entry. -/
theorem c10_key_equals_url_invariant (ops : List RepoOp) :
    (applyRepoOps ops RepoStore.new).keyIsUrl ∧
    ∀ u r, (applyRepoOps ops RepoStore.new).get_by_url u = some r →
      r.url = u ∧
      (applyRepoOps ops RepoStore.new).lookup_owner_by_url u =
        some r.commit_by := by
  have hwf : (applyRepoOps ops RepoStore.new).keyIsUrl :=
    keyIsUrl_applyRepoOps ops RepoStore.new (by
      intro p hp
      simp [RepoStore.new] at hp)
  refine ⟨hwf, ?_⟩
  intro u r h
  simp only [RepoStore.get_by_url] at h
  have hk := hwf _ (mapLookup_mem _ _ _ h)
  refine ⟨hk.symm, ?_⟩
  simp only [RepoStore.lookup_owner_by_url, h, Option.map_some']

theorem c10_key_equals_url_invariant_witness :
    (⟨"proj", "git@h:a.git", "work"⟩ : Repo).url = "git@h:a.git" ∧
    (applyRepoOps [RepoOp.add_repo "proj" "git@h:a.git" "work"]
        RepoStore.new).lookup_owner_by_url "git@h:a.git" =
      some (⟨"proj", "git@h:a.git", "work"⟩ : Repo).commit_by :=
  (c10_key_equals_url_invariant
    [RepoOp.add_repo "proj" "git@h:a.git" "work"]).2
    "git@h:a.git" ⟨"proj", "git@h:a.git", "work"⟩ (by rfl)

/-- Claim C4 counterexample: on a concrete one-entry store the embedded
serializer puts the single field repos at the top level, not the remote
URL, so the persisted form is not the object which maps the URL
directly that the claim describes. -/
theorem c4_counterexample :
    Json.topKeys (RepoStore.toJson
      ⟨[("git@github.com:a/b.git",
         ⟨"b", "git@github.com:a/b.git", "work"⟩)]⟩) = some ["repos"] ∧
    RepoStore.toJson
        ⟨[("git@github.com:a/b.git",
           ⟨"b", "git@github.com:a/b.git", "work"⟩)]⟩ ≠
      repoStoreToJsonSpecTopLevel
        ⟨[("git@github.com:a/b.git",
           ⟨"b", "git@github.com:a/b.git", "work"⟩)]⟩ := by
  refine ⟨rfl, fun h => ?_⟩
  have h₂ := congrArg Json.topKeys h
  simp only [RepoStore.toJson, repoStoreToJsonSpecTopLevel, Json.topKeys,
    List.map_cons, List.map_nil, Option.some.injEq] at h₂
  exact absurd h₂ (by decide)

/-- Claim C4 amended: the repo store persists as a JSON object with the
single top-level field repos, under which the URL-keyed entries sit,
while the profile store persists profile names at the top level. -/
theorem c4_amended_repos_nested (rs : RepoStore) (cs : ConfigStore) :
    Json.topKeys rs.toJson = some ["repos"] ∧
    rs.toJson.getField "repos" =
      some (Json.obj (rs.repos.map fun p => (p.1, p.2.toJson))) ∧
    Json.topKeys cs.toJson = some cs.list := by
  refine ⟨rfl, rfl, ?_⟩
  simp [Json.topKeys, ConfigStore.toJson, ConfigStore.list, List.map_map]

/-- Claim C3 counterexample: a profile whose user.name is empty
produces no user.name invocation at all, so the applier does not
invoke the external tool for all three global settings on every
profile. -/
theorem c3_counterexample :
    apply_git_config
        { user := { email := "e@x.com", name := "", signoff := none },
          urls := [], commit := { gpgsign := false } } =
      [["config", "--global", "user.email", "e@x.com"],
       ["config", "--global", "commit.gpgsign", "false"]] ∧
    ∀ cmd ∈ apply_git_config
        { user := { email := "e@x.com", name := "", signoff := none },
          urls := [], commit := { gpgsign := false } },
      "user.name" ∉ cmd := by
  exact ⟨rfl, by decide⟩

/-- Claim C3 amended: for every profile whose user.name and user.email
are non-empty, the applier invokes the external tool to set global
user.name, user.email and commit.gpgsign, followed by exactly one
insteadOf rule per url_rewrites entry, in that order. -/
theorem c3_apply_sequence (config : GitConfig)
    (hn : config.user.name ≠ "") (he : config.user.email ≠ "") :
    apply_git_config config =
      ["config", "--global", "user.name", config.user.name] ::
      ["config", "--global", "user.email", config.user.email] ::
      ["config", "--global", "commit.gpgsign",
        if config.commit.gpgsign then "true" else "false"] ::
      config.urls.map (fun u =>
        ["config", "--global", "url." ++ u.pattern ++ ".insteadOf",
          u.instead_of]) := by
  simp [apply_git_config, hn, he]

theorem c3_apply_sequence_witness :
    (apply_git_config
      { user := { email := "a@x.com", name := "A", signoff := none },
        urls := [{ pattern := "git@github.com:",
                   instead_of := "https://github.com/" }],
        commit := { gpgsign := true } }).length = 4 := by
  rw [c3_apply_sequence
    { user := { email := "a@x.com", name := "A", signoff := none },
      urls := [{ pattern := "git@github.com:",
                 instead_of := "https://github.com/" }],
      commit := { gpgsign := true } } (by decide) (by decide)]
  rfl

/-- When the user declines the confirmation, add_repo_interactive
returns no owner and leaves the repo store alone; with an empty profile
store it has nevertheless already created, saved and applied a first
profile. -/
theorem add_repo_interactive_decline (repo_url : String)
    (cs : ConfigStore) (rs : RepoStore) (inp : ProvisionInputs)
    (hdecl : inp.confirm_add = false) :
    add_repo_interactive repo_url cs rs inp =
      if cs.list.isEmpty then
        { cs := (add_config_interactive cs inp.first_profile).1, rs := rs,
          writes := (add_config_interactive cs inp.first_profile).2.1,
          saved_config := true, saved_repos := false, owner := none }
      else
        { cs := cs, rs := rs, writes := [], saved_config := false,
          saved_repos := false, owner := none } := by
  unfold add_repo_interactive
  rw [hdecl]
  by_cases hemp : cs.list.isEmpty = true
  · simp [hemp]
  · simp [hemp]

/-- Claim C5 counterexample: with both stores empty, a user who
declines to register the repository still ends a run in which the
profile store was mutated and saved and global git configuration was
written, because the first profile is created and applied before the
question is asked; so the decline path is not a no-op for every initial
store state. -/
theorem c5_counterexample :
    (pre_commit RepoStore.new ConfigStore.new none none
        ⟨⟨"work", "A", "a@x.com", false⟩, false, "b", 0,
          ⟨"", "", "", false⟩⟩ "git@example.com:a/b.git").exitCode = 0 ∧
    (pre_commit RepoStore.new ConfigStore.new none none
        ⟨⟨"work", "A", "a@x.com", false⟩, false, "b", 0,
          ⟨"", "", "", false⟩⟩ "git@example.com:a/b.git").cs ≠
      ConfigStore.new ∧
    (pre_commit RepoStore.new ConfigStore.new none none
        ⟨⟨"work", "A", "a@x.com", false⟩, false, "b", 0,
          ⟨"", "", "", false⟩⟩ "git@example.com:a/b.git").saved_config =
      true ∧
    (pre_commit RepoStore.new ConfigStore.new none none
        ⟨⟨"work", "A", "a@x.com", false⟩, false, "b", 0,
          ⟨"", "", "", false⟩⟩ "git@example.com:a/b.git").writes ≠ [] := by
  decide

/-- Claim C5 amended: on the provisioning path, when the user declines
to register the repository the process exits zero and the repo store is
neither mutated nor saved, in every initial state; and provided the
profile store is non-empty the run is a complete no-op, with no git
writes, no profile store mutation and no save. When the profile store
is empty, a first profile is created, saved and applied before the
question is asked, and declining leaves that profile in place. -/
theorem c5_decline_exits_zero_repo_untouched (rs : RepoStore)
    (cs : ConfigStore) (rawName rawEmail : Option CmdOutput)
    (inp : ProvisionInputs) (repo_url : String) (r : RunResult)
    (h₁ : rs.lookup_owner_by_url repo_url = none)
    (hdecl : inp.confirm_add = false)
    (hr : r = pre_commit rs cs rawName rawEmail inp repo_url) :
    (r.exitCode = 0 ∧ r.rs = rs ∧ r.saved_repos = false) ∧
    (cs.configs ≠ [] →
      r.writes = [] ∧ r.cs = cs ∧ r.saved_config = false) := by
  subst hr
  unfold pre_commit
  rw [h₁]
  simp only []
  rw [add_repo_interactive_decline repo_url cs rs inp hdecl]
  by_cases hemp : cs.list.isEmpty = true
  · rw [if_pos hemp]
    refine ⟨⟨rfl, rfl, rfl⟩, fun hne => absurd ?_ hne⟩
    have : cs.list = [] := by
      cases hl : cs.list with
      | nil => rfl
      | cons a l => rw [hl] at hemp; cases hemp
    simpa [ConfigStore.list] using this
  · rw [if_neg hemp]
    exact ⟨⟨rfl, rfl, rfl⟩, fun _ => ⟨rfl, rfl, rfl⟩⟩

theorem c5_decline_exits_zero_repo_untouched_witness :
    ((pre_commit RepoStore.new
        ⟨[("work", ⟨⟨"a@x.com", "A", none⟩, [], ⟨false⟩⟩)]⟩ none none
        ⟨⟨"", "", "", false⟩, false, "b", 0, ⟨"", "", "", false⟩⟩
        "git@example.com:a/b.git").exitCode = 0) ∧
    ((pre_commit RepoStore.new
        ⟨[("work", ⟨⟨"a@x.com", "A", none⟩, [], ⟨false⟩⟩)]⟩ none none
        ⟨⟨"", "", "", false⟩, false, "b", 0, ⟨"", "", "", false⟩⟩
        "git@example.com:a/b.git").writes = []) :=
  have h := c5_decline_exits_zero_repo_untouched RepoStore.new
    ⟨[("work", ⟨⟨"a@x.com", "A", none⟩, [], ⟨false⟩⟩)]⟩ none none
    ⟨⟨"", "", "", false⟩, false, "b", 0, ⟨"", "", "", false⟩⟩
    "git@example.com:a/b.git" _ (by rfl) (by rfl) rfl
  ⟨h.1.1, (h.2 (by decide)).1⟩

/-! Lemmas about repeated key removal, for the cascading delete. -/

theorem mapLookup_foldl_erase_none {α : Type} (ks : List String)
    (m : List (String × α)) (k : String) (h : mapLookup m k = none) :
    mapLookup (ks.foldl mapErase m) k = none := by
  induction ks generalizing m with
  | nil => exact h
  | cons a ks ih =>
    rw [List.foldl_cons]
    apply ih
    rw [mapLookup_erase]
    by_cases hk : k = a
    · simp [hk]
    · simp [hk, h]

theorem mapLookup_foldl_erase_mem {α : Type} (ks : List String)
    (m : List (String × α)) (k : String) (h : k ∈ ks) :
    mapLookup (ks.foldl mapErase m) k = none := by
  induction ks generalizing m with
  | nil => cases h
  | cons a ks ih =>
    rw [List.foldl_cons]
    by_cases hk : k = a
    · apply mapLookup_foldl_erase_none
      rw [mapLookup_erase, if_pos hk]
    · rcases List.mem_cons.mp h with h | h
      · exact absurd h hk
      · exact ih _ h

theorem mapLookup_foldl_erase_not_mem {α : Type} (ks : List String)
    (m : List (String × α)) (k : String) (h : k ∉ ks) :
    mapLookup (ks.foldl mapErase m) k = mapLookup m k := by
  induction ks generalizing m with
  | nil => rfl
  | cons a ks ih =>
    rw [List.foldl_cons, ih _ (fun hm => h (List.mem_cons_of_mem a hm)),
      mapLookup_erase, if_neg]
    intro he
    rw [he] at h
    exact h (List.mem_cons_self a ks)

theorem nodup_key_unique {α : Type} (m : List (String × α))
    (hnd : (m.map Prod.fst).Nodup) (k : String) (a b : α)
    (ha : (k, a) ∈ m) (hb : (k, b) ∈ m) : a = b := by
  induction m with
  | nil => cases ha
  | cons hd tl ih =>
    rw [List.map_cons, List.nodup_cons] at hnd
    rcases List.mem_cons.mp ha with ha | ha <;>
      rcases List.mem_cons.mp hb with hb | hb
    · simpa using ha.trans hb.symm
    · exfalso
      apply hnd.1
      have h1 : hd.1 = k := by rw [← ha]
      rw [h1]
      exact List.mem_map.mpr ⟨(k, b), hb, rfl⟩
    · exfalso
      apply hnd.1
      have h1 : hd.1 = k := by rw [← hb]
      rw [h1]
      exact List.mem_map.mpr ⟨(k, a), ha, rfl⟩
    · exact ih hnd.2 ha hb

theorem nodup_keys_insert {α : Type} (m : List (String × α)) (k : String)
    (v : α) (h : (m.map Prod.fst).Nodup) :
    ((mapInsert m k v).map Prod.fst).Nodup := by
  rw [mapInsert, List.map_cons, List.nodup_cons]
  constructor
  · intro hk
    rcases List.mem_map.mp hk with ⟨p, hp, hpk⟩
    have hf := List.of_mem_filter hp
    rw [hpk] at hf
    simp at hf
  · exact List.Nodup.sublist ((List.filter_sublist m).map Prod.fst) h

theorem foldl_remove_by_url_repos (ks : List String) (s : RepoStore) :
    (ks.foldl (fun s u => (RepoStore.remove_by_url s u).2) s).repos =
      ks.foldl mapErase s.repos := by
  induction ks generalizing s with
  | nil => rfl
  | cons a ks ih =>
    rw [List.foldl_cons, List.foldl_cons]
    exact ih _

/-- With a name that is present in the profile store, profile_delete
removes every repo whose owner is that name and then the profile, and
saves both stores. -/
theorem profile_delete_found (cs : ConfigStore) (rs : RepoStore)
    (name : String) (cfg : GitConfig) (h : cs.get name = some cfg) :
    profile_delete cs rs name =
      { cs := (cs.remove name).2,
        rs := ((rs.find_by_owner name).map Repo.url).foldl
          (fun s u => (RepoStore.remove_by_url s u).2) rs,
        saved_config := true, saved_repos := true } := by
  have hmem : name ∈ cs.list := List.mem_map_of_mem Prod.fst
    (mapLookup_mem _ _ _ h)
  have hemp : cs.list.isEmpty = false := by
    cases hl : cs.list with
    | nil => rw [hl] at hmem; cases hmem
    | cons a l => rfl
  have hcont : cs.list.contains name = true := by
    simpa using hmem
  have hrem : (cs.remove name).1.isSome = true := by
    simp only [ConfigStore.remove]
    rw [show mapLookup cs.configs name = some cfg from h]
    rfl
  unfold profile_delete
  simp [hemp, hcont, hrem, hmem]

/-- Claim C6: for well-formed repo stores (unique URL keys and every
entry keyed by its own url field) and a profile store that actually
holds the work profile, add_repo(name, url, work) followed by deleting
the work profile cascades: the registered URL no longer resolves to an
owner, and every repository entry whose owner is a different profile is
left unchanged. -/
theorem c6_profile_delete_cascades (cs : ConfigStore) (rs : RepoStore)
    (n u : String) (cfg : GitConfig)
    (hwork : cs.get "work" = some cfg)
    (hnd : (rs.repos.map Prod.fst).Nodup)
    (hku : rs.keyIsUrl) :
    (profile_delete cs (rs.add_repo n u "work") "work").rs.lookup_owner_by_url
        u = none ∧
    ∀ u₂ r, (rs.add_repo n u "work").get_by_url u₂ = some r →
      r.commit_by ≠ "work" →
      (profile_delete cs (rs.add_repo n u "work") "work").rs.get_by_url u₂ =
        some r := by
  have hnd₁ : ((rs.add_repo n u "work").repos.map Prod.fst).Nodup :=
    nodup_keys_insert rs.repos u _ hnd
  have hku₁ : (rs.add_repo n u "work").keyIsUrl :=
    keyIsUrl_insert rs.repos ⟨n, u, "work"⟩ hku
  rw [profile_delete_found cs (rs.add_repo n u "work") "work" cfg hwork]
  have hfind : (⟨n, u, "work"⟩ : Repo) ∈
      (rs.add_repo n u "work").find_by_owner "work" := by
    apply List.mem_filter.mpr
    constructor
    · exact List.mem_map_of_mem Prod.snd (List.mem_cons_self _ _)
    · rfl
  constructor
  · have humem : u ∈ ((rs.add_repo n u "work").find_by_owner "work").map
        Repo.url :=
      List.mem_map.mpr ⟨⟨n, u, "work"⟩, hfind, rfl⟩
    show (_ : RepoStore).lookup_owner_by_url u = none
    unfold RepoStore.lookup_owner_by_url
    rw [foldl_remove_by_url_repos,
      mapLookup_foldl_erase_mem _ _ _ humem]
    rfl
  · intro u₂ r hget hown
    have hne : u₂ ∉ ((rs.add_repo n u "work").find_by_owner "work").map
        Repo.url := by
      intro hmem2
      rcases List.mem_map.mp hmem2 with ⟨r₂, hr₂, hurl⟩
      rcases List.mem_filter.mp hr₂ with ⟨hr₂m, hr₂own⟩
      rcases List.mem_map.mp hr₂m with ⟨p, hpm, hps⟩
      have hp1 : p.1 = u₂ := by rw [hku₁ p hpm, hps, hurl]
      have hmemP : (u₂, r₂) ∈ (rs.add_repo n u "work").repos := by
        have hpe : p = (u₂, r₂) := Prod.ext hp1 hps
        rwa [hpe] at hpm
      have hmemR : (u₂, r) ∈ (rs.add_repo n u "work").repos :=
        mapLookup_mem _ _ _ hget
      have heq : r = r₂ := nodup_key_unique _ hnd₁ u₂ r r₂ hmemR hmemP
      rw [heq] at hown
      exact hown (by simpa using hr₂own)
    show (_ : RepoStore).get_by_url u₂ = some r
    unfold RepoStore.get_by_url
    rw [foldl_remove_by_url_repos,
      mapLookup_foldl_erase_not_mem _ _ _ hne]
    exact hget

theorem c6_profile_delete_cascades_witness :
    (profile_delete ⟨[("work", ⟨⟨"a@x.com", "A", none⟩, [], ⟨false⟩⟩)]⟩
        ((⟨[("v", ⟨"other", "v", "personal"⟩)]⟩ : RepoStore).add_repo
          "b" "git@h:a/b.git" "work")
        "work").rs.lookup_owner_by_url "git@h:a/b.git" = none :=
  (c6_profile_delete_cascades
    ⟨[("work", ⟨⟨"a@x.com", "A", none⟩, [], ⟨false⟩⟩)]⟩
    ⟨[("v", ⟨"other", "v", "personal"⟩)]⟩ "b" "git@h:a/b.git" _
    (by rfl) (by decide)
    (by unfold RepoStore.keyIsUrl; decide)).1

end Gamm
